import Mathlib

/-!
Verification of the submission-originality core against its source.

This file gives a shallow embedding of the two core subsystems of the
repository: the multi-provider commit-history ingester (src/ingest.py) and
the temporal classifier and risk scorer (src/temporal.py), together with
theorems settling the frozen claims about them.

Modelling conventions:
  - Python datetimes are embedded as a civil-field record PyDateTime with an
    optional UTC offset in seconds; aware datetimes compare by their absolute
    instant, exactly as CPython compares aware datetime objects.
  - IANA zones are embedded at a fixed offset (ZoneInfo lookups appear only
    through zoneOffset below); America/New_York is taken at its standard
    offset EST (UTC-5), which is the offset in force on every date appearing
    in the specification scenarios (February 2026).
  - Python floats are embedded as rationals.
  - Functions that can raise (ValueError paths) return Option / Except.
  - The HTTP layer is abstracted as response oracles (one per endpoint
    family); a transport-level failure, which requests.RequestException turns
    into None in _safe_get, is the none case of the oracle.
  - Unbounded while-loops over pages are embedded with a page fuel; every
    theorem about them holds for arbitrary fuel.
-/

/-- Nat decimal digit as a character (used for n below 10). -/
def digitChar (n : Nat) : Char := Char.ofNat (48 + n)

/-- Decimal digits of a natural number, fuelled so the recursion is
structural; fuel n+1 always suffices. -/
def natDigitsGo : Nat → Nat → List Char
  | 0, _ => []
  | fuel + 1, n =>
    if n < 10 then [digitChar n] else natDigitsGo fuel (n / 10) ++ [digitChar (n % 10)]

/-- Decimal rendering of a natural number (the Lean counterpart of str(n)). -/
def natStr (n : Nat) : String := (natDigitsGo (n + 1) n).asString

/-- Boolean test: the first list is a leading segment of the second. -/
def matchesAt : List Char → List Char → Bool
  | [], _ => true
  | _ :: _, [] => false
  | p :: ps, t :: ts => (p == t) && matchesAt ps ts

/-- Fuelled worker for replace-all (leftmost, non-overlapping), the semantics
of Python str.replace; fuel at least the text length always suffices. -/
def pyReplaceGo (pat rep : List Char) : Nat → List Char → List Char
  | 0, t => t
  | _ + 1, [] => []
  | fuel + 1, c :: rest =>
    if pat ≠ [] ∧ matchesAt pat (c :: rest) = true then
      rep ++ pyReplaceGo pat rep fuel (List.drop (pat.length - 1) rest)
    else
      c :: pyReplaceGo pat rep fuel rest

/-- Replace every occurrence of pat by rep, scanning left to right, exactly as
Python str.replace does. -/
def pyReplace (pat rep text : List Char) : List Char :=
  pyReplaceGo pat rep text.length text

/-- String wrapper for pyReplace: s.replace(pat, rep). -/
def pyReplaceStr (s pat rep : String) : String :=
  (pyReplace pat.toList rep.toList s.toList).asString

/-- Split a character list on a separator character, keeping empty pieces,
the semantics of Python str.split with a one-character separator. -/
def splitChar (sep : Char) : List Char → List (List Char)
  | [] => [[]]
  | c :: rest =>
    let r := splitChar sep rest
    if c = sep then [] :: r
    else
      match r with
      | [] => [[c]]
      | h :: t => (c :: h) :: t

/-- Split at the first occurrence of pat, returning the text before it and
the text after it, or none when pat does not occur. -/
def splitFirst (pat : List Char) : List Char → Option (List Char × List Char)
  | [] => none
  | c :: rest =>
    if matchesAt pat (c :: rest) = true then some ([], List.drop pat.length (c :: rest))
    else
      match splitFirst pat rest with
      | none => none
      | some (before, after) => some (c :: before, after)

/-- Boolean substring test, the semantics of the Python expression pat in s. -/
def hasSub (pat : List Char) : List Char → Bool
  | [] => pat.isEmpty
  | c :: rest => matchesAt pat (c :: rest) || hasSub pat rest

/-- Boolean test: suff is a trailing segment of l. -/
def endsList (suff l : List Char) : Bool := matchesAt suff.reverse l.reverse

/-- Python str.removesuffix: drop suff from the end of s when present. -/
def removesuffix (s suff : String) : String :=
  if endsList suff.toList s.toList then
    (s.toList.take (s.toList.length - suff.toList.length)).asString
  else s

/-- Python str.lower (ASCII letters are all that the embedded hosts use). -/
def pyLower (s : String) : String := (s.toList.map Char.toLower).asString

/-- Python str.strip with no argument: trim whitespace on both ends. -/
def pyStrip (s : String) : String :=
  (((s.toList.dropWhile Char.isWhitespace).reverse.dropWhile Char.isWhitespace).reverse).asString

/-- Python str.strip applied with the single character slash, as the URL
resolver does to the URL path. -/
def stripSlashes (s : String) : String :=
  (((s.toList.dropWhile (fun c => c = '/')).reverse.dropWhile (fun c => c = '/')).reverse).asString

/-- Python str.join over a list of strings. -/
def pyJoin (sep : String) : List String → String
  | [] => ""
  | [s] => s
  | s :: rest => s ++ sep ++ pyJoin sep rest

/-- Python truthiness of an optional string: None and the empty string are
falsy, everything else truthy. -/
def pyTruthy : Option String → Bool
  | none => false
  | some s => s ≠ ""

/-- The Python idiom x or d for an optional string x and string default d:
None and the empty string fall through to the default. -/
def pyOr (x : Option String) (d : String) : String :=
  match x with
  | none => d
  | some s => if s = "" then d else s

/-- Value of a decimal digit character, none for anything else. -/
def digitVal (c : Char) : Option Nat :=
  if '0' ≤ c ∧ c ≤ '9' then some (c.toNat - 48) else none

/-- Read exactly n decimal digits, accumulating their value. -/
def readDigitsAux : Nat → Nat → List Char → Option (Nat × List Char)
  | 0, acc, cs => some (acc, cs)
  | _ + 1, _, [] => none
  | n + 1, acc, c :: cs =>
    match digitVal c with
    | some d => readDigitsAux n (acc * 10 + d) cs
    | none => none

/-- Read exactly n decimal digits. -/
def readDigits (n : Nat) (cs : List Char) : Option (Nat × List Char) :=
  readDigitsAux n 0 cs

/-- Consume one expected character. -/
def expectChar (c : Char) : List Char → Option (List Char)
  | [] => none
  | x :: xs => if x = c then some xs else none

/-- Gregorian leap-year rule, as the Python datetime module validates dates. -/
def isLeap (y : Nat) : Bool := (y % 4 == 0) && (y % 100 != 0 || y % 400 == 0)

/-- Days in a month of the proleptic Gregorian calendar. -/
def daysInMonth (y m : Nat) : Nat :=
  if m = 2 then (if isLeap y then 29 else 28)
  else if m = 4 ∨ m = 6 ∨ m = 9 ∨ m = 11 then 30
  else 31

/-- Parse the date part YYYY-MM-DD with calendar validation, as
datetime.fromisoformat validates it. -/
def parseDate (cs : List Char) : Option (Nat × Nat × Nat × List Char) := do
  let (y, cs1) ← readDigits 4 cs
  let cs2 ← expectChar '-' cs1
  let (m, cs3) ← readDigits 2 cs2
  let cs4 ← expectChar '-' cs3
  let (d, cs5) ← readDigits 2 cs4
  if 1 ≤ y ∧ 1 ≤ m ∧ m ≤ 12 ∧ 1 ≤ d ∧ d ≤ daysInMonth y m then some (y, m, d, cs5)
  else none

/-- Optional fractional seconds: a dot or comma followed by one to six
digits, scaled to microseconds. -/
def parseFrac : List Char → Option (Nat × List Char)
  | [] => some (0, [])
  | c :: rest =>
    if c = '.' ∨ c = ',' then
      let ds := rest.takeWhile Char.isDigit
      if ds.length = 0 ∨ 6 < ds.length then none
      else
        let v := ds.foldl (fun a ch => a * 10 + (ch.toNat - 48)) 0
        some (v * 10 ^ (6 - ds.length), rest.drop ds.length)
    else some (0, c :: rest)

/-- Parse the clock part HH[:MM[:SS[.ffffff]]]. -/
def parseTime (cs : List Char) : Option (Nat × Nat × Nat × Nat × List Char) := do
  let (h, cs1) ← readDigits 2 cs
  match cs1 with
  | ':' :: cs2 => do
    let (mi, cs3) ← readDigits 2 cs2
    match cs3 with
    | ':' :: cs4 => do
      let (s, cs5) ← readDigits 2 cs4
      let (micro, cs6) ← parseFrac cs5
      pure (h, mi, s, micro, cs6)
    | _ => pure (h, mi, 0, 0, cs3)
  | _ => pure (h, 0, 0, 0, cs1)

/-- Parse the body HH[:MM[:SS]] of a numeric UTC offset, consuming all
remaining input. -/
def parseOffHMS (cs : List Char) : Option (Nat × Nat × Nat) := do
  let (oh, cs1) ← readDigits 2 cs
  match cs1 with
  | [] => if oh ≤ 23 then pure (oh, 0, 0) else none
  | ':' :: cs2 => do
    let (om, cs3) ← readDigits 2 cs2
    match cs3 with
    | [] => if oh ≤ 23 ∧ om ≤ 59 then pure (oh, om, 0) else none
    | ':' :: cs4 => do
      let (os, cs5) ← readDigits 2 cs4
      if cs5 = [] ∧ oh ≤ 23 ∧ om ≤ 59 ∧ os ≤ 59 then pure (oh, om, os) else none
    | _ => none
  | _ => none

/-- Parse clock plus optional signed UTC offset, consuming all input and
validating ranges as datetime.fromisoformat does. -/
def parseTimePart (cs : List Char) : Option (Nat × Nat × Nat × Nat × Option Int) := do
  let (h, mi, s, micro, cs1) ← parseTime cs
  if h ≤ 23 ∧ mi ≤ 59 ∧ s ≤ 59 then
    match cs1 with
    | [] => pure (h, mi, s, micro, none)
    | '+' :: cs2 => do
      let (oh, om, os) ← parseOffHMS cs2
      pure (h, mi, s, micro, some ((oh * 3600 + om * 60 + os : Nat) : Int))
    | '-' :: cs2 => do
      let (oh, om, os) ← parseOffHMS cs2
      pure (h, mi, s, micro, some (-((oh * 3600 + om * 60 + os : Nat) : Int)))
    | _ => none
  else none

/-- A parsed Python datetime value: civil fields plus an optional UTC offset
in seconds (none models a naive datetime). -/
structure PyDateTime where
  year : Nat
  month : Nat
  day : Nat
  hour : Nat
  minute : Nat
  second : Nat
  microsecond : Nat
  offset : Option Int
deriving DecidableEq

/-- Embedding of datetime.fromisoformat on the extended ISO-8601 forms the
providers and the configuration use: YYYY-MM-DD, optionally followed by a
single separator character and HH[:MM[:SS[.ffffff]]][(+|-)HH[:MM[:SS]]].
Any input outside this family is a parse failure (ValueError). -/
def fromisoformat (s : String) : Option PyDateTime :=
  match parseDate s.toList with
  | none => none
  | some (y, m, d, rest) =>
    match rest with
    | [] => some ⟨y, m, d, 0, 0, 0, 0, none⟩
    | _ :: rest1 =>
      match parseTimePart rest1 with
      | none => none
      | some (h, mi, sec, micro, off) => some ⟨y, m, d, h, mi, sec, micro, off⟩

/-- Days since 1970-01-01 of a civil date (standard civil-from-days inverse
construction restricted to years from 1, which the parser guarantees). -/
def daysFromCivil (y m d : Nat) : Int :=
  let y1 := if m ≤ 2 then y - 1 else y
  let era := y1 / 400
  let yoe := y1 % 400
  let mp := (m + 9) % 12
  let doy := (153 * mp + 2) / 5 + d - 1
  let doe := yoe * 365 + yoe / 4 - yoe / 100 + doy
  ((era * 146097 + doe : Nat) : Int) - 719468

/-- Absolute instant of a datetime in microseconds since the epoch. Aware
CPython datetimes compare by exactly this instant; the temporal code below
only ever compares aware datetimes, so getD 0 is never reached. -/
def instantUs (dt : PyDateTime) : Int :=
  (daysFromCivil dt.year dt.month dt.day * 86400
      + ((dt.hour * 3600 + dt.minute * 60 + dt.second : Nat) : Int)
      - dt.offset.getD 0) * 1000000
    + (dt.microsecond : Int)

/-- Fixed-offset model of ZoneInfo for the zones the embedding needs.
America/New_York is taken at EST (UTC-5), its offset on every date in the
specification scenarios; unknown names model the ZoneInfo lookup error. -/
def zoneOffset : String → Option Int
  | "UTC" => some 0
  | "America/New_York" => some (-18000)
  | _ => none

/-- One ingestion unit (src/models.py RepoSpec). -/
structure RepoSpec where
  team : String
  repo_url : String
deriving DecidableEq

/-- A normalized commit (src/models.py Commit). -/
structure Commit where
  sha : String
  author : String
  email : String
  timestamp : String
  message : String
  files_changed : List String
deriving DecidableEq

/-- Per-repository ingestion outcome (src/models.py IngestResult). -/
structure IngestResult where
  spec : RepoSpec
  commits : List Commit
  errors : List String
  warnings : List String
deriving DecidableEq

/-- Hackathon window configuration (src/config.py HackathonWindow). -/
structure HackathonWindow where
  start_datetime : String
  end_datetime : String
  timezone : String
deriving DecidableEq

/-- Embedding of temporal._parse_datetime: fromisoformat after replacing Z
with +00:00; a naive result gets the default offset attached (the callers
pass the window zone, or UTC when no default is given). A none result models
the ValueError the Python function raises. -/
def _parse_datetime (raw : String) (defaultOff : Int) : Option PyDateTime :=
  match fromisoformat (pyReplaceStr raw ("Z") ("+00:00")) with
  | none => none
  | some dt => some (if dt.offset.isSome then dt else { dt with offset := some defaultOff })

/-- Embedding of temporal.parse_hackathon_window. The source converts both
endpoints with astimezone(tz), which changes the civil representation but not
the instant; the embedding keeps the parsed values and compares instants, as
CPython compares the aware datetimes. A none result models the raised error:
an unknown zone, an unparseable endpoint, or end before start. -/
def parse_hackathon_window (w : HackathonWindow) : Option (PyDateTime × PyDateTime) :=
  match zoneOffset w.timezone with
  | none => none
  | some tz =>
    match _parse_datetime w.start_datetime tz, _parse_datetime w.end_datetime tz with
    | some s, some e => if instantUs e < instantUs s then none else some (s, e)
    | _, _ => none

/-- Embedding of temporal.classify_commit; the period is the literal string
the source returns, none models a raised ValueError. -/
def classify_commit (c : Commit) (w : HackathonWindow) : Option String :=
  match parse_hackathon_window w with
  | none => none
  | some (s, e) =>
    match _parse_datetime c.timestamp 0 with
    | none => none
    | some cdt =>
      some (if instantUs cdt < instantUs s then "pre"
            else if instantUs e < instantUs cdt then "post"
            else "in")

/-- Floor of a rational as an integer. -/
def ratFloor (q : ℚ) : Int := Int.ediv q.num (q.den : Int)

/-- Round to the nearest integer, ties to even, the rounding CPython float
formatting applies. -/
def roundHalfEven (q : ℚ) : Int :=
  let f := ratFloor q
  let r := q - (f : ℚ)
  if r < 1 / 2 then f
  else if 1 / 2 < r then f + 1
  else if f % 2 = 0 then f else f + 1

/-- One-decimal fixed formatting of a rational, the embedding of the Python
format specification .1f on the (nonnegative) percentage values the risk
scorer prints. -/
def fmtFloat1 (q : ℚ) : String :=
  let n := roundHalfEven (q * 10)
  (if n < 0 then "-" else "") ++ natStr (n.natAbs / 10) ++ "." ++ natStr (n.natAbs % 10)

/-- Number of files of the optional largest pre-window commit, 0 when absent
(temporal._derive_risk local largest_pre_size). -/
def largestPreSize (largest : Option Commit) : Nat :=
  match largest with
  | some c => c.files_changed.length
  | none => 0

/-- Embedding of temporal._derive_risk: the pure risk scorer. Percentages are
rationals standing for the Python floats. -/
def _derive_risk (pre_window_pct : ℚ) (largest_pre_commit : Option Commit)
    (total_commits : Nat) : String × String :=
  if total_commits = 0 then
    ("low", "No commits found; temporal originality risk is low.")
  else
    let largest_pre_size := largestPreSize largest_pre_commit
    if 50 < pre_window_pct then
      ("high", fmtFloat1 pre_window_pct ++ "% of commits were made before the hackathon window.")
    else if 20 < largest_pre_size then
      ("high", "Largest pre-window commit touched " ++ natStr largest_pre_size ++ " files (>20).")
    else if 20 < pre_window_pct then
      ("medium",
        fmtFloat1 pre_window_pct ++ "% of commits were made before the hackathon window (>20%).")
    else if 10 < largest_pre_size then
      ("medium", "Largest pre-window commit touched " ++ natStr largest_pre_size ++ " files (>10).")
    else
      ("low", "Most commits were made during the hackathon window.")

/-- Derived temporal report (src/temporal.py TemporalReport). -/
structure TemporalReport where
  team : String
  repo_url : String
  total_commits : Nat
  pre_window : Nat
  in_window : Nat
  post_window : Nat
  pre_window_pct : ℚ
  largest_pre_commit : Option Commit
  first_in_window_commit : Option Commit
  risk_flag : String
  risk_reason : String
deriving DecidableEq

/-- The partition loop of analyze_repo: classify every commit against the
window instants, keeping insertion order per bucket and the parsed instant of
each commit (the source reparses timestamps where it needs the instant again;
parsing is deterministic, so carrying the value is equivalent). A none result
models the ValueError raised on the first unparseable timestamp. -/
def classifyAll (s e : PyDateTime) :
    List Commit → Option (List (Commit × Int) × List (Commit × Int) × List (Commit × Int))
  | [] => some ([], [], [])
  | c :: rest =>
    match _parse_datetime c.timestamp 0 with
    | none => none
    | some dt =>
      match classifyAll s e rest with
      | none => none
      | some (pres, ins, posts) =>
        let t := instantUs dt
        if t < instantUs s then some ((c, t) :: pres, ins, posts)
        else if instantUs e < t then some (pres, ins, (c, t) :: posts)
        else some (pres, (c, t) :: ins, posts)

/-- Python max with a key over a nonempty list: keeps the first element among
equals, replacing only on a strictly greater key. -/
def maxByFiles : Commit → List Commit → Commit
  | best, [] => best
  | best, c :: rest =>
    maxByFiles (if best.files_changed.length < c.files_changed.length then c else best) rest

/-- Python min with a key over a nonempty list: keeps the first element among
equals, replacing only on a strictly smaller key. -/
def minByInstant : Commit × Int → List (Commit × Int) → Commit × Int
  | best, [] => best
  | best, c :: rest => minByInstant (if c.2 < best.2 then c else best) rest

/-- Embedding of temporal.analyze_repo; none models a raised ValueError. -/
def analyze_repo (r : IngestResult) (w : HackathonWindow) : Option TemporalReport :=
  match parse_hackathon_window w with
  | none => none
  | some (s, e) =>
    match classifyAll s e r.commits with
    | none => none
    | some (pres, ins, posts) =>
      let total := r.commits.length
      let pct : ℚ := if total = 0 then 0 else (pres.length : ℚ) / (total : ℚ) * 100
      let largest :=
        match pres with
        | [] => none
        | p :: ps => some (maxByFiles p.1 (ps.map Prod.fst))
      let firstIn :=
        match ins with
        | [] => none
        | i :: irest => some (minByInstant i irest).1
      let fr := _derive_risk pct largest total
      some ⟨r.spec.team, r.spec.repo_url, total, pres.length, ins.length, posts.length,
        pct, largest, firstIn, fr.1, fr.2⟩

/-- Instant in microseconds where a naive datetime is interpreted at the
process-local offset, the behaviour of astimezone on naive values. -/
def instantUsLocal (localOff : Int) (dt : PyDateTime) : Int :=
  (daysFromCivil dt.year dt.month dt.day * 86400
      + ((dt.hour * 3600 + dt.minute * 60 + dt.second : Nat) : Int)
      - dt.offset.getD localOff) * 1000000
    + (dt.microsecond : Int)

/-- Civil date from days since the epoch (standard days-to-civil
construction; all dates the code produces lie at year 1 or later, where the
toNat shift is exact). -/
def civilFromDays (z0 : Int) : Nat × Nat × Nat :=
  let z := (z0 + 719468).toNat
  let era := z / 146097
  let doe := z % 146097
  let yoe := (doe - doe / 1460 + doe / 36524 - doe / 146096) / 365
  let y := yoe + era * 400
  let doy := doe - (365 * yoe + yoe / 4 - yoe / 100)
  let mp := (5 * doy + 2) / 153
  let d := doy - (153 * mp + 2) / 5 + 1
  let m := if mp < 10 then mp + 3 else mp - 9
  (if m ≤ 2 then y + 1 else y, m, d)

/-- The embedding of datetime.astimezone(timezone.utc): rebase the instant to
offset zero and recompute the civil fields. A naive input is interpreted at
the process-local offset localOff, which is what CPython does. -/
def astimezoneUtc (localOff : Int) (dt : PyDateTime) : PyDateTime :=
  let t := instantUsLocal localOff dt
  let day := Int.ediv t 86400000000
  let rem := (t - day * 86400000000).toNat
  let c := civilFromDays day
  ⟨c.1, c.2.1, c.2.2, rem / 3600000000, rem / 60000000 % 60, rem / 1000000 % 60,
    rem % 1000000, some 0⟩

/-- Zero-padded decimal rendering of width w (the %0wd pieces of isoformat). -/
def padNum (w n : Nat) : String :=
  (List.replicate (w - (natDigitsGo (n + 1) n).length) '0' ++ natDigitsGo (n + 1) n).asString

/-- The offset-free part of datetime.isoformat: date, the T separator, clock,
and the fractional part only when microseconds are nonzero, exactly as
CPython emits it. -/
def isoBase (dt : PyDateTime) : String :=
  padNum 4 dt.year ++ "-" ++ padNum 2 dt.month ++ "-" ++ padNum 2 dt.day ++ "T"
    ++ padNum 2 dt.hour ++ ":" ++ padNum 2 dt.minute ++ ":" ++ padNum 2 dt.second
    ++ (if dt.microsecond = 0 then "" else "." ++ padNum 6 dt.microsecond)

/-- datetime.isoformat of a UTC-offset datetime: base plus the +00:00 suffix. -/
def isoformatUtc (dt : PyDateTime) : String := isoBase dt ++ "+00:00"

/-- Embedding of ingest._normalize_timestamp. localOff models the process
local timezone, which astimezone consults only for naive inputs. -/
def _normalize_timestamp (localOff : Int) (raw : String) : String :=
  if raw = "" then ""
  else
    match fromisoformat (pyReplaceStr raw ("Z") ("+00:00")) with
    | none => raw
    | some dt => pyReplaceStr (isoformatUtc (astimezoneUtc localOff dt)) ("+00:00") ("Z")

/-- Resolved provider address (src/ingest.py ParsedRepoURL). -/
structure ParsedRepoURL where
  provider : String
  host : String
  owner : Option String
  repo : Option String
  namespace_ : Option String
deriving DecidableEq

/-- The two hosts recognised as GitHub (src/ingest.py GITHUB_HOSTS). -/
def GITHUB_HOSTS : List String := ["github.com", "www.github.com"]

/-- The netloc and path fields of urllib.parse.urlparse, for the URL shapes
the resolver receives: with a scheme separator the netloc runs to the next
slash and the path is the rest; without one the netloc is empty and the whole
input is the path. -/
def urlNetlocPath (u : String) : String × String :=
  match splitFirst ("://".toList) u.toList with
  | none => ("", u)
  | some (_, rest) =>
    ((rest.takeWhile (fun c => c ≠ '/')).asString, (rest.dropWhile (fun c => c ≠ '/')).asString)

/-- The path-segment pipeline of parse_repo_url: strip slashes at both ends,
split on slash, keep the non-empty segments. -/
def pathParts (path : String) : List String :=
  ((splitChar '/' (stripSlashes path).toList).map List.asString).filter (fun p => p ≠ "")

/-- Embedding of ingest.parse_repo_url; the error case models the raised
ValueError for a recognised provider with too few path segments. -/
def parse_repo_url (repo_url : String) : Except String ParsedRepoURL :=
  let np := urlNetlocPath repo_url
  let host := pyStrip (pyLower np.1)
  if host = "" then .ok ⟨"unknown", "", none, none, none⟩
  else
    let parts := pathParts np.2
    if host ∈ GITHUB_HOSTS then
      match parts with
      | p0 :: p1 :: _ => .ok ⟨"github", host, some p0, some (removesuffix p1 (".git")), none⟩
      | _ => .error ("Invalid GitHub URL: " ++ repo_url)
    else if hasSub ("gitlab".toList) host.toList = true then
      match parts with
      | _ :: _ :: _ =>
        .ok ⟨"gitlab", host, none, some (removesuffix (parts.getLastD "") (".git")),
          some (pyJoin ("/") parts.dropLast)⟩
      | _ => .error ("Invalid GitLab URL: " ++ repo_url)
    else .ok ⟨"unknown", host, none, none, none⟩

/-- A commit-list summary entry from the GitHub list endpoint: the sha field
as the code reads it (none models a missing or null field). -/
structure GhItem where
  sha : Option String
deriving DecidableEq

/-- The fields the GitHub per-commit detail response is read for: the
commit.author object (name, email, date), the commit message, and the files
array, where each entry is the filename of a dict entry carrying one and none
stands for a non-dict entry or a missing filename. -/
structure GhDetail where
  authorName : Option String
  authorEmail : Option String
  authorDate : Option String
  message : Option String
  files : List (Option String)
deriving DecidableEq

/-- Outcome of decoding one HTTP response body with response.json(): CPython
raises a requests JSONDecodeError on a body that is not valid JSON, and the
ingest code never catches that exception. -/
inductive JsonBody (α : Type) where
  | malformed : JsonBody α
  | decoded : α → JsonBody α
deriving DecidableEq

/-- Outcome of running ingest code that can let an exception escape: raised
models an uncaught exception propagating out to the caller. -/
inductive PyResult (α : Type) where
  | raised : PyResult α
  | ok : α → PyResult α
deriving DecidableEq

/-- Response oracle for the GitHub API: listPage gives the commit-list
response for a page number, detail the per-sha detail response. In both, none
is a transport-level failure (requests.RequestException, None from _safe_get)
and some (status, body) an HTTP response whose body still has to be decoded
by response.json(); after decoding, a none list body models a decoded JSON
payload that is not a list. -/
structure GithubEnv where
  listPage : Nat → Option (Nat × JsonBody (Option (List GhItem)))
  detail : String → Option (Nat × JsonBody GhDetail)

/-- Append an error (result.errors.append). -/
def addError (r : IngestResult) (msg : String) : IngestResult :=
  { r with errors := r.errors ++ [msg] }

/-- Append a warning (result.warnings.append). -/
def addWarning (r : IngestResult) (msg : String) : IngestResult :=
  { r with warnings := r.warnings ++ [msg] }

/-- Append a commit (result.commits.append). -/
def addCommit (r : IngestResult) (c : Commit) : IngestResult :=
  { r with commits := r.commits ++ [c] }

/-- The Commit built from one GitHub detail response, with the falsy-or
defaults and timestamp normalization the source applies. -/
def mkGithubCommit (localOff : Int) (sha : String) (d : GhDetail) : Commit :=
  ⟨sha, pyOr d.authorName ("unknown"), pyOr d.authorEmail ("unknown"),
    _normalize_timestamp localOff (pyOr d.authorDate ("")), pyOr d.message (""),
    d.files.filterMap (fun o => o.bind (fun f => if f = "" then none else some f))⟩

/-- The per-item body of the GitHub page loop: skip entries with a falsy sha,
turn a failed or >=400 detail response into a warning and drop the commit,
decode the detail body (a malformed body raises, uncaught) and append the
built commit otherwise, continuing with the rest. -/
def _github_items (localOff : Int) (env : GithubEnv) (repoUrl : String) :
    List GhItem → IngestResult → PyResult IngestResult
  | [], acc => .ok acc
  | item :: rest, acc =>
    let sha := pyOr item.sha ("")
    if sha = "" then _github_items localOff env repoUrl rest acc
    else
      match env.detail sha with
      | none =>
        _github_items localOff env repoUrl rest
          (addWarning acc ("Failed to fetch commit details for " ++ sha ++ " in " ++ repoUrl))
      | some (st, detailBody) =>
        if 400 ≤ st then
          _github_items localOff env repoUrl rest
            (addWarning acc ("Failed to fetch commit details for " ++ sha ++ " in " ++ repoUrl))
        else
          match detailBody with
          | .malformed => .raised
          | .decoded d =>
            _github_items localOff env repoUrl rest
              (addCommit acc (mkGithubCommit localOff sha d))

/-- The GitHub page loop of ingest._ingest_github, embedded with page fuel:
each iteration consults the list oracle for the current page and applies
exactly the status policy of the source, stopping on any error or warning,
on a non-list or empty body, or on a short page. The list body is decoded
only after the status checks, and a malformed body raises, uncaught. -/
def _github_pages (localOff : Int) (env : GithubEnv) (repoUrl : String)
    (token : Option String) : Nat → Nat → IngestResult → PyResult IngestResult
  | 0, _, acc => .ok acc
  | fuel + 1, page, acc =>
    match env.listPage page with
    | none => .ok (addError acc ("GitHub request failed for " ++ repoUrl))
    | some (status, rawBody) =>
      if status = 401 ∨ status = 403 then
        if pyTruthy token = true then
          .ok (addError acc ("GitHub access denied for " ++ repoUrl ++ "; token may lack scope"))
        else
          .ok (addWarning acc
            ("GitHub repo may be private: " ++ repoUrl ++ "; missing token, skipped"))
      else if status = 404 then
        .ok (addError acc ("GitHub repo not found or unreachable: " ++ repoUrl))
      else if 400 ≤ status then
        .ok (addError acc ("GitHub API error (" ++ natStr status ++ ") for " ++ repoUrl))
      else
        match rawBody with
        | .malformed => .raised
        | .decoded body =>
          match body with
          | none => .ok acc
          | some items =>
            if items = [] then .ok acc
            else
              match _github_items localOff env repoUrl items acc with
              | .raised => .raised
              | .ok acc1 =>
                if items.length < 100 then .ok acc1
                else _github_pages localOff env repoUrl token fuel (page + 1) acc1

/-- A commit-list summary entry from the GitLab list endpoint. -/
structure GlItem where
  id : Option String
deriving DecidableEq

/-- The fields the GitLab per-commit detail response is read for. -/
structure GlDetail where
  author_name : Option String
  author_email : Option String
  committed_date : Option String
  message : Option String
deriving DecidableEq

/-- One entry of the GitLab diff response: new_path and old_path of a dict
entry; a none entry models a non-dict element, which the source filters out. -/
structure GlDiffEntry where
  new_path : Option String
  old_path : Option String
deriving DecidableEq

/-- Response oracle for the GitLab API, with the extra per-commit diff
endpoint; bodies arrive undecoded, as for GitHub. -/
structure GitlabEnv where
  listPage : Nat → Option (Nat × JsonBody (Option (List GlItem)))
  detail : String → Option (Nat × JsonBody GlDetail)
  diff : String → Option (Nat × JsonBody (List (Option GlDiffEntry)))

/-- The changed path of one diff entry: new_path or old_path under Python
truthiness, none when both are falsy (the source then filters the entry out). -/
def glPath (e : GlDiffEntry) : Option String :=
  match e.new_path with
  | some s =>
    if s = "" then
      match e.old_path with
      | some t => if t = "" then none else some t
      | none => none
    else some s
  | none =>
    match e.old_path with
    | some t => if t = "" then none else some t
    | none => none

/-- The changed-file list built from a GitLab diff response body. -/
def glFiles (entries : List (Option GlDiffEntry)) : List String :=
  entries.filterMap (fun oe => oe.bind glPath)

/-- The per-item body of the GitLab page loop. A failed or >=400 detail
response is a warning and drops the commit; a failed or >=400 diff response
is silently an empty changed-file list and the commit is still appended,
exactly as the source behaves. The diff body and then the detail body are
decoded in source order, and a malformed body raises, uncaught. -/
def _gitlab_items (localOff : Int) (env : GitlabEnv) (repoUrl : String) :
    List GlItem → IngestResult → PyResult IngestResult
  | [], acc => .ok acc
  | item :: rest, acc =>
    let sha := pyOr item.id ("")
    if sha = "" then _gitlab_items localOff env repoUrl rest acc
    else
      match env.detail sha with
      | none =>
        _gitlab_items localOff env repoUrl rest
          (addWarning acc ("Failed to fetch commit details for " ++ sha ++ " in " ++ repoUrl))
      | some (st, detailBody) =>
        if 400 ≤ st then
          _gitlab_items localOff env repoUrl rest
            (addWarning acc ("Failed to fetch commit details for " ++ sha ++ " in " ++ repoUrl))
        else
          let filesR : PyResult (List String) :=
            match env.diff sha with
            | none => .ok []
            | some (dst, diffBody) =>
              if 400 ≤ dst then .ok []
              else
                match diffBody with
                | .malformed => .raised
                | .decoded entries => .ok (glFiles entries)
          match filesR with
          | .raised => .raised
          | .ok files =>
            match detailBody with
            | .malformed => .raised
            | .decoded d =>
              _gitlab_items localOff env repoUrl rest
                (addCommit acc
                  ⟨sha, pyOr d.author_name ("unknown"), pyOr d.author_email ("unknown"),
                    _normalize_timestamp localOff (pyOr d.committed_date ("")),
                    pyOr d.message (""), files⟩)

/-- The GitLab page loop of ingest._ingest_gitlab, embedded with page fuel;
the status policy is identical to the GitHub one up to the provider name in
the messages, and the list body is decoded only after the status checks. -/
def _gitlab_pages (localOff : Int) (env : GitlabEnv) (repoUrl : String)
    (token : Option String) : Nat → Nat → IngestResult → PyResult IngestResult
  | 0, _, acc => .ok acc
  | fuel + 1, page, acc =>
    match env.listPage page with
    | none => .ok (addError acc ("GitLab request failed for " ++ repoUrl))
    | some (status, rawBody) =>
      if status = 401 ∨ status = 403 then
        if pyTruthy token = true then
          .ok (addError acc ("GitLab access denied for " ++ repoUrl ++ "; token may lack scope"))
        else
          .ok (addWarning acc
            ("GitLab repo may be private: " ++ repoUrl ++ "; missing token, skipped"))
      else if status = 404 then
        .ok (addError acc ("GitLab repo not found or unreachable: " ++ repoUrl))
      else if 400 ≤ status then
        .ok (addError acc ("GitLab API error (" ++ natStr status ++ ") for " ++ repoUrl))
      else
        match rawBody with
        | .malformed => .raised
        | .decoded body =>
          match body with
          | none => .ok acc
          | some items =>
            if items = [] then .ok acc
            else
              match _gitlab_items localOff env repoUrl items acc with
              | .raised => .raised
              | .ok acc1 =>
                if items.length < 100 then .ok acc1
                else _gitlab_pages localOff env repoUrl token fuel (page + 1) acc1

/-- The full environment one ingest_repo call runs against: the two provider
oracles and the two ambient environment tokens os.getenv can supply. -/
structure ProviderEnv where
  github : GithubEnv
  gitlab : GitlabEnv
  envGithubToken : Option String
  envGitlabToken : Option String

/-- Embedding of ingest.ingest_repo: build a fresh result, resolve the URL
(a resolution error becomes the single error entry and an early return),
warn and return on an unknown provider, fill tokens from the environment
when not supplied, and delegate to the provider fetcher. The only exception
that can escape is the uncaught JSONDecodeError of a response.json() call
on a malformed body, which surfaces as the raised outcome. -/
def ingest_repo (spec : RepoSpec) (github_token gitlab_token : Option String)
    (env : ProviderEnv) (localOff : Int) (fuel : Nat) : PyResult IngestResult :=
  let result : IngestResult := ⟨spec, [], [], []⟩
  match parse_repo_url spec.repo_url with
  | .error msg => .ok (addError result msg)
  | .ok parsed =>
    if parsed.provider = "unknown" then
      .ok (addWarning result ("Unsupported host '" ++ parsed.host ++ "' for "
          ++ spec.repo_url ++ "; skipped"))
    else
      let ghTok := match github_token with | some t => some t | none => env.envGithubToken
      let glTok := match gitlab_token with | some t => some t | none => env.envGitlabToken
      if parsed.provider = "github" then
        _github_pages localOff env.github spec.repo_url ghTok fuel 1 result
      else if parsed.provider = "gitlab" then
        _gitlab_pages localOff env.gitlab spec.repo_url glTok fuel 1 result
      else .ok result

/-- Every body the GitHub oracle ever delivers decodes as JSON. -/
def githubDecodes (env : GithubEnv) : Prop :=
  (∀ p st b, env.listPage p = some (st, b) → b ≠ JsonBody.malformed) ∧
  (∀ s st b, env.detail s = some (st, b) → b ≠ JsonBody.malformed)

/-- Every body the GitLab oracle ever delivers decodes as JSON. -/
def gitlabDecodes (env : GitlabEnv) : Prop :=
  (∀ p st b, env.listPage p = some (st, b) → b ≠ JsonBody.malformed) ∧
  (∀ s st b, env.detail s = some (st, b) → b ≠ JsonBody.malformed) ∧
  (∀ s st b, env.diff s = some (st, b) → b ≠ JsonBody.malformed)

/-- The redaction marker the clone strategy substitutes for the token; the
repository test suite asserts this marker appears in the sanitized message. -/
def REDACTION : List Char := ['*', '*', '*']

/-- Modelled from the spec: the clone-strategy fetcher is absent from src
(only its tests exercise it); per the spec, on clone failure any embedded
token is scrubbed from the captured diagnostic text by exact substring
replacement with a redaction marker before the text reaches any error or
warning message. -/
def scrub_clone_error (token text : String) : String :=
  (pyReplace token.toList REDACTION text.toList).asString

/-- C1: for every commit and valid hackathon window (endpoints parseable in
the declared zone, commit timestamp parseable), classify_commit returns the
period determined by comparing the commit instant with the closed interval
of window instants: in exactly on start <= t <= end (both endpoints
included), pre exactly on t strictly before start, post exactly on t
strictly after end. Window endpoints lacking an offset are interpreted in the
window zone inside parse_hackathon_window, and the commit UTC timestamp is
compared as an instant, which interpretation in the window zone preserves. -/
theorem classify_commit_spec (c : Commit) (w : HackathonWindow) (s e cdt : PyDateTime)
    (hw : parse_hackathon_window w = some (s, e))
    (hc : _parse_datetime c.timestamp 0 = some cdt) :
    (classify_commit c w = some ("in") ↔
      instantUs s ≤ instantUs cdt ∧ instantUs cdt ≤ instantUs e) ∧
    (classify_commit c w = some ("pre") ↔ instantUs cdt < instantUs s) ∧
    (classify_commit c w = some ("post") ↔ instantUs e < instantUs cdt) := by
  have hse : instantUs s ≤ instantUs e := by
    unfold parse_hackathon_window at hw
    cases hz : zoneOffset w.timezone with
    | none => simp [hz] at hw
    | some tz =>
      simp only [hz] at hw
      cases hs1 : _parse_datetime w.start_datetime tz with
      | none => simp [hs1] at hw
      | some s1 =>
        cases he1 : _parse_datetime w.end_datetime tz with
        | none => simp [hs1, he1] at hw
        | some e1 =>
          simp only [hs1, he1] at hw
          split at hw
          · simp at hw
          · rename_i hlt
            have hp := Option.some.inj hw
            have h1 : s1 = s := congrArg Prod.fst hp
            have h2 : e1 = e := congrArg Prod.snd hp
            subst h1
            subst h2
            omega
  have hcl : classify_commit c w =
      some (if instantUs cdt < instantUs s then "pre"
            else if instantUs e < instantUs cdt then "post" else "in") := by
    unfold classify_commit
    rw [hw, hc]
  rw [hcl]
  split_ifs with h1 h2 <;> refine ⟨?_, ?_, ?_⟩ <;> simp_all <;> omega

/-- Witness for C1: the specification scenario window (February 2026 in
America/New_York) with the three scenario commits classifying pre, in, post,
the in commit sitting exactly at the window start instant. -/
theorem classify_commit_spec_witness :
    classify_commit ⟨"c1", "a", "a@x", "2026-02-20T13:59:59Z", "m", []⟩
        ⟨"2026-02-20T09:00:00", "2026-02-22T17:00:00", "America/New_York"⟩ = some ("pre") ∧
    classify_commit ⟨"c2", "a", "a@x", "2026-02-20T14:00:00Z", "m", []⟩
        ⟨"2026-02-20T09:00:00", "2026-02-22T17:00:00", "America/New_York"⟩ = some ("in") ∧
    classify_commit ⟨"c3", "a", "a@x", "2026-02-22T22:00:01Z", "m", []⟩
        ⟨"2026-02-20T09:00:00", "2026-02-22T17:00:00", "America/New_York"⟩ = some ("post") := by
  have hw : parse_hackathon_window
      ⟨"2026-02-20T09:00:00", "2026-02-22T17:00:00", "America/New_York"⟩
      = some (⟨2026, 2, 20, 9, 0, 0, 0, some (-18000)⟩,
              ⟨2026, 2, 22, 17, 0, 0, 0, some (-18000)⟩) := by decide
  refine ⟨((classify_commit_spec _ _ _ _ ⟨2026, 2, 20, 13, 59, 59, 0, some 0⟩ hw
      (by decide)).2.1).mpr (by decide),
    ((classify_commit_spec _ _ _ _ ⟨2026, 2, 20, 14, 0, 0, 0, some 0⟩ hw
      (by decide)).1).mpr (by decide),
    ((classify_commit_spec _ _ _ _ ⟨2026, 2, 22, 22, 0, 1, 0, some 0⟩ hw
      (by decide)).2.2).mpr (by decide)⟩

/-- C2: the risk scorer is a pure function of its three inputs and applies
its checks in the fixed order of the source: zero total commits gives low
with the no-commits reason; otherwise a percentage above 50 gives high
citing the percentage; else a largest pre-window commit above 20 files gives
high citing the file count; else a percentage above 20 gives medium citing
the percentage; else above 10 files gives medium citing the file count; else
low with the in-window reason. -/
theorem derive_risk_spec (pct : ℚ) (largest : Option Commit) (total : Nat) :
    (total = 0 → _derive_risk pct largest total
      = ("low", "No commits found; temporal originality risk is low.")) ∧
    (total ≠ 0 → 50 < pct → _derive_risk pct largest total
      = ("high", fmtFloat1 pct ++ "% of commits were made before the hackathon window.")) ∧
    (total ≠ 0 → pct ≤ 50 → 20 < largestPreSize largest → _derive_risk pct largest total
      = ("high", "Largest pre-window commit touched " ++ natStr (largestPreSize largest)
          ++ " files (>20).")) ∧
    (total ≠ 0 → pct ≤ 50 → largestPreSize largest ≤ 20 → 20 < pct →
      _derive_risk pct largest total
      = ("medium", fmtFloat1 pct ++ "% of commits were made before the hackathon window (>20%).")) ∧
    (total ≠ 0 → pct ≤ 50 → largestPreSize largest ≤ 20 → pct ≤ 20 →
      10 < largestPreSize largest → _derive_risk pct largest total
      = ("medium", "Largest pre-window commit touched " ++ natStr (largestPreSize largest)
          ++ " files (>10).")) ∧
    (total ≠ 0 → pct ≤ 50 → largestPreSize largest ≤ 20 → pct ≤ 20 →
      largestPreSize largest ≤ 10 → _derive_risk pct largest total
      = ("low", "Most commits were made during the hackathon window.")) := by
  refine ⟨?_, ?_, ?_, ?_, ?_, ?_⟩
  · intro h0
    simp [_derive_risk, h0]
  · intro h0 h50
    simp [_derive_risk, h0, h50]
  · intro h0 h50 h20
    simp [_derive_risk, h0, not_lt.mpr h50, h20]
  · intro h0 h50 hf20 h20
    simp [_derive_risk, h0, not_lt.mpr h50, not_lt.mpr hf20, h20]
  · intro h0 h50 hf20 h20 hf10
    simp [_derive_risk, h0, not_lt.mpr h50, not_lt.mpr hf20, not_lt.mpr h20, hf10]
  · intro h0 h50 hf20 h20 hf10
    simp [_derive_risk, h0, not_lt.mpr h50, not_lt.mpr hf20, not_lt.mpr h20, not_lt.mpr hf10]

/-- Witness for C2: the specification scenario of 5 commits with one
pre-window commit touching 21 files and percentage exactly 20 takes the
file-count rule to a high flag, and the reason mentions 21 and files. -/
theorem derive_risk_spec_witness :
    _derive_risk 20 (some ⟨"sha1", "dev", "dev@x", "2026-02-19T12:00:00Z", "big",
        List.replicate 21 ("f")⟩) 5
      = ("high", "Largest pre-window commit touched 21 files (>20).") ∧
    ("21".toList <:+: ("Largest pre-window commit touched 21 files (>20).").toList) ∧
    ("files".toList <:+: ("Largest pre-window commit touched 21 files (>20).").toList) := by
  refine ⟨?_, ⟨"Largest pre-window commit touched ".toList, " files (>20).".toList, by decide⟩,
    ⟨"Largest pre-window commit touched 21 ".toList, " (>20).".toList, by decide⟩⟩
  exact ((derive_risk_spec 20 (some ⟨"sha1", "dev", "dev@x", "2026-02-19T12:00:00Z", "big",
      List.replicate 21 ("f")⟩) 5).2.2.1 (by decide) (by decide) (by decide)).trans (by decide)

/-- C8: for a window whose zone resolves and whose endpoints parse in that
zone, window parsing succeeds with the parsed pair exactly when the end
instant is at or after the start instant, and fails exactly when the end
instant is strictly before the start instant; equality of the endpoints is
accepted. -/
theorem parse_window_spec (w : HackathonWindow) (tz : Int) (s e : PyDateTime)
    (htz : zoneOffset w.timezone = some tz)
    (hs : _parse_datetime w.start_datetime tz = some s)
    (he : _parse_datetime w.end_datetime tz = some e) :
    (parse_hackathon_window w = some (s, e) ↔ instantUs s ≤ instantUs e) ∧
    (parse_hackathon_window w = none ↔ instantUs e < instantUs s) := by
  have hred : parse_hackathon_window w
      = if instantUs e < instantUs s then none else some (s, e) := by
    unfold parse_hackathon_window
    simp only [htz, hs, he]
  rw [hred]
  split_ifs with h1 <;> refine ⟨?_, ?_⟩ <;> simp_all

/-- Witness for C8: a window whose end equals its start is accepted and
yields the parsed pair. -/
theorem parse_window_spec_witness :
    parse_hackathon_window ⟨"2026-02-20T09:00:00", "2026-02-20T09:00:00", "UTC"⟩
      = some (⟨2026, 2, 20, 9, 0, 0, 0, some 0⟩, ⟨2026, 2, 20, 9, 0, 0, 0, some 0⟩) :=
  (parse_window_spec _ 0 _ _ (by decide) (by decide) (by decide)).1.mpr (by decide)

/-- Any list containing a commit with an unparseable timestamp makes the
partition loop of analyze_repo fail. -/
theorem classifyAll_eq_none (s e : PyDateTime) (c : Commit)
    (hts : _parse_datetime c.timestamp 0 = none) :
    ∀ l : List Commit, c ∈ l → classifyAll s e l = none := by
  intro l hmem
  induction l with
  | nil => cases hmem
  | cons a rest ih =>
    rcases List.mem_cons.mp hmem with rfl | hrest
    · simp only [classifyAll, hts]
    · cases hpa : _parse_datetime a.timestamp 0 with
      | none => simp only [classifyAll, hpa]
      | some dta => simp only [classifyAll, hpa, ih hrest]

/-- C10: a commit whose timestamp string is not parseable (the empty string
ingestion emits for a missing date, or any unparseable value that
normalization passed through) makes classify_commit raise, and makes
analyze_repo raise for any ingest result containing it: the classification
entry points are not total over the commits ingestion can produce. The none
results model the raised ValueError. -/
theorem classify_raises_on_unparseable (c : Commit) (w : HackathonWindow)
    (r : IngestResult) (hts : _parse_datetime c.timestamp 0 = none)
    (hmem : c ∈ r.commits) :
    classify_commit c w = none ∧ analyze_repo r w = none := by
  cases hpw : parse_hackathon_window w with
  | none => exact ⟨by simp [classify_commit, hpw], by simp [analyze_repo, hpw]⟩
  | some se =>
    refine ⟨?_, ?_⟩
    · simp only [classify_commit, hpw, hts]
    · simp only [analyze_repo, hpw]
      rw [classifyAll_eq_none se.1 se.2 c hts r.commits hmem]

/-- Witness for C10: the empty timestamp, which ingestion emits when a
provider omits the date, makes both entry points fail on the scenario
window. -/
theorem classify_raises_on_unparseable_witness :
    classify_commit ⟨"s1", "a", "a@x", "", "m", []⟩
        ⟨"2026-02-20T09:00:00", "2026-02-22T17:00:00", "America/New_York"⟩ = none ∧
    analyze_repo ⟨⟨"t", "u"⟩, [⟨"s1", "a", "a@x", "", "m", []⟩], [], []⟩
        ⟨"2026-02-20T09:00:00", "2026-02-22T17:00:00", "America/New_York"⟩ = none :=
  classify_raises_on_unparseable _ _ _ (by decide) (by decide)

/-- With decodable bodies the GitHub item loop never raises. -/
theorem github_items_ok (localOff : Int) (env : GithubEnv) (repoUrl : String)
    (henv : githubDecodes env) :
    ∀ (items : List GhItem) (acc : IngestResult),
      ∃ r, _github_items localOff env repoUrl items acc = .ok r := by
  intro items
  induction items with
  | nil => intro acc; exact ⟨acc, rfl⟩
  | cons item rest ih =>
    intro acc
    simp only [_github_items]
    by_cases hsha : pyOr item.sha ("") = ""
    · rw [if_pos hsha]
      exact ih acc
    · rw [if_neg hsha]
      rcases hdet : env.detail (pyOr item.sha ("")) with _ | ⟨st, b⟩
      · exact ih _
      · simp only []
        by_cases hst : 400 ≤ st
        · rw [if_pos hst]
          exact ih _
        · rw [if_neg hst]
          cases b with
          | malformed => exact absurd rfl (henv.2 _ _ _ hdet)
          | decoded d => exact ih _

/-- With decodable bodies the GitHub page loop never raises. -/
theorem github_pages_ok (localOff : Int) (env : GithubEnv) (repoUrl : String)
    (token : Option String) (henv : githubDecodes env) :
    ∀ (fuel page : Nat) (acc : IngestResult),
      ∃ r, _github_pages localOff env repoUrl token fuel page acc = .ok r := by
  intro fuel
  induction fuel with
  | zero => intro page acc; exact ⟨acc, rfl⟩
  | succ f ih =>
    intro page acc
    simp only [_github_pages]
    rcases hlp : env.listPage page with _ | ⟨st, rawBody⟩
    · exact ⟨_, rfl⟩
    · simp only []
      by_cases h43 : st = 401 ∨ st = 403
      · rw [if_pos h43]
        by_cases ht : pyTruthy token = true
        · rw [if_pos ht]; exact ⟨_, rfl⟩
        · rw [if_neg ht]; exact ⟨_, rfl⟩
      · rw [if_neg h43]
        by_cases h404 : st = 404
        · rw [if_pos h404]; exact ⟨_, rfl⟩
        · rw [if_neg h404]
          by_cases h400 : 400 ≤ st
          · rw [if_pos h400]; exact ⟨_, rfl⟩
          · rw [if_neg h400]
            cases rawBody with
            | malformed => exact absurd rfl (henv.1 _ _ _ hlp)
            | decoded body =>
              cases body with
              | none => exact ⟨acc, rfl⟩
              | some items =>
                simp only []
                by_cases hemp : items = []
                · rw [if_pos hemp]; exact ⟨acc, rfl⟩
                · rw [if_neg hemp]
                  obtain ⟨r1, hr1⟩ := github_items_ok localOff env repoUrl henv items acc
                  rw [hr1]
                  simp only []
                  by_cases hlen : items.length < 100
                  · rw [if_pos hlen]; exact ⟨r1, rfl⟩
                  · rw [if_neg hlen]; exact ih (page + 1) r1

/-- With decodable bodies the GitLab item loop never raises. -/
theorem gitlab_items_ok (localOff : Int) (env : GitlabEnv) (repoUrl : String)
    (henv : gitlabDecodes env) :
    ∀ (items : List GlItem) (acc : IngestResult),
      ∃ r, _gitlab_items localOff env repoUrl items acc = .ok r := by
  intro items
  induction items with
  | nil => intro acc; exact ⟨acc, rfl⟩
  | cons item rest ih =>
    intro acc
    simp only [_gitlab_items]
    by_cases hsha : pyOr item.id ("") = ""
    · rw [if_pos hsha]
      exact ih acc
    · rw [if_neg hsha]
      rcases hdet : env.detail (pyOr item.id ("")) with _ | ⟨st, b⟩
      · exact ih _
      · simp only []
        by_cases hst : 400 ≤ st
        · rw [if_pos hst]
          exact ih _
        · rw [if_neg hst]
          rcases hdiff : env.diff (pyOr item.id ("")) with _ | ⟨dst, db⟩
          · cases b with
            | malformed => exact absurd rfl (henv.2.1 _ _ _ hdet)
            | decoded d => exact ih _
          · simp only []
            by_cases hdst : 400 ≤ dst
            · rw [if_pos hdst]
              cases b with
              | malformed => exact absurd rfl (henv.2.1 _ _ _ hdet)
              | decoded d => exact ih _
            · rw [if_neg hdst]
              cases db with
              | malformed => exact absurd rfl (henv.2.2 _ _ _ hdiff)
              | decoded entries =>
                cases b with
                | malformed => exact absurd rfl (henv.2.1 _ _ _ hdet)
                | decoded d => exact ih _

/-- With decodable bodies the GitLab page loop never raises. -/
theorem gitlab_pages_ok (localOff : Int) (env : GitlabEnv) (repoUrl : String)
    (token : Option String) (henv : gitlabDecodes env) :
    ∀ (fuel page : Nat) (acc : IngestResult),
      ∃ r, _gitlab_pages localOff env repoUrl token fuel page acc = .ok r := by
  intro fuel
  induction fuel with
  | zero => intro page acc; exact ⟨acc, rfl⟩
  | succ f ih =>
    intro page acc
    simp only [_gitlab_pages]
    rcases hlp : env.listPage page with _ | ⟨st, rawBody⟩
    · exact ⟨_, rfl⟩
    · simp only []
      by_cases h43 : st = 401 ∨ st = 403
      · rw [if_pos h43]
        by_cases ht : pyTruthy token = true
        · rw [if_pos ht]; exact ⟨_, rfl⟩
        · rw [if_neg ht]; exact ⟨_, rfl⟩
      · rw [if_neg h43]
        by_cases h404 : st = 404
        · rw [if_pos h404]; exact ⟨_, rfl⟩
        · rw [if_neg h404]
          by_cases h400 : 400 ≤ st
          · rw [if_pos h400]; exact ⟨_, rfl⟩
          · rw [if_neg h400]
            cases rawBody with
            | malformed => exact absurd rfl (henv.1 _ _ _ hlp)
            | decoded body =>
              cases body with
              | none => exact ⟨acc, rfl⟩
              | some items =>
                simp only []
                by_cases hemp : items = []
                · rw [if_pos hemp]; exact ⟨acc, rfl⟩
                · rw [if_neg hemp]
                  obtain ⟨r1, hr1⟩ := gitlab_items_ok localOff env repoUrl henv items acc
                  rw [hr1]
                  simp only []
                  by_cases hlen : items.length < 100
                  · rw [if_pos hlen]; exact ⟨r1, rfl⟩
                  · rw [if_neg hlen]; exact ih (page + 1) r1

/-- C3 counterexample: ingest_repo does raise. A GitHub commit-list response
with status 200 whose body is not valid JSON makes the uncaught
response.json() JSONDecodeError escape ingest_repo, so not every failure is
captured as data on the result. -/
theorem ingest_repo_raises_cx :
    ingest_repo ⟨"Team", "https://github.com/org/repo"⟩ none none
        ⟨⟨fun _ => some (200, JsonBody.malformed), fun _ => none⟩,
          ⟨fun _ => none, fun _ => none, fun _ => none⟩, none, none⟩ 0 3
      = PyResult.raised := by
  decide

/-- C3 (amended): when URL resolution fails, ingest_repo returns a result
carrying exactly that one error, no commits and no warnings, and ingestion
goes no further; and ingest_repo returns a result rather than raising
whenever every response body it consults decodes as JSON, so every
transport-level and HTTP-status failure is captured as data. A response body
that is not valid JSON instead raises an uncaught JSONDecodeError out of
ingest_repo. -/
theorem ingest_repo_spec (spec : RepoSpec) (gt glt : Option String)
    (env : ProviderEnv) (localOff : Int) (fuel : Nat) :
    (∀ msg, parse_repo_url spec.repo_url = .error msg →
      ingest_repo spec gt glt env localOff fuel = .ok ⟨spec, [], [msg], []⟩) ∧
    (githubDecodes env.github → gitlabDecodes env.gitlab →
      ∃ r, ingest_repo spec gt glt env localOff fuel = .ok r) := by
  constructor
  · intro msg h
    unfold ingest_repo
    rw [h]
    rfl
  · intro hgh hgl
    unfold ingest_repo
    rcases hp : parse_repo_url spec.repo_url with msg | parsed
    · exact ⟨_, rfl⟩
    · simp only []
      by_cases hu : parsed.provider = "unknown"
      · rw [if_pos hu]
        exact ⟨_, rfl⟩
      · rw [if_neg hu]
        by_cases hg : parsed.provider = "github"
        · rw [if_pos hg]
          exact github_pages_ok localOff env.github spec.repo_url _ hgh fuel 1 _
        · rw [if_neg hg]
          by_cases hl : parsed.provider = "gitlab"
          · rw [if_pos hl]
            exact gitlab_pages_ok localOff env.gitlab spec.repo_url _ hgl fuel 1 _
          · rw [if_neg hl]
            exact ⟨_, rfl⟩

/-- Witness for C3 (amended): the invalid-URL early return at a concrete
spec, and a run against a concrete environment whose bodies all decode. -/
theorem ingest_repo_spec_witness :
    ingest_repo ⟨"Team", "https://github.com/justowner"⟩ none none
        ⟨⟨fun _ => none, fun _ => none⟩, ⟨fun _ => none, fun _ => none, fun _ => none⟩,
          none, none⟩ 0 3
      = .ok ⟨⟨"Team", "https://github.com/justowner"⟩, [],
          ["Invalid GitHub URL: https://github.com/justowner"], []⟩ ∧
    ∃ r, ingest_repo ⟨"Team", "https://github.com/org/repo"⟩ none none
        ⟨⟨fun _ => none, fun _ => none⟩, ⟨fun _ => none, fun _ => none, fun _ => none⟩,
          none, none⟩ 0 3 = .ok r :=
  ⟨(ingest_repo_spec ⟨"Team", "https://github.com/justowner"⟩ none none
      ⟨⟨fun _ => none, fun _ => none⟩, ⟨fun _ => none, fun _ => none, fun _ => none⟩,
        none, none⟩ 0 3).1 _ rfl,
   (ingest_repo_spec ⟨"Team", "https://github.com/org/repo"⟩ none none
      ⟨⟨fun _ => none, fun _ => none⟩, ⟨fun _ => none, fun _ => none, fun _ => none⟩,
        none, none⟩ 0 3).2
     ⟨fun _ _ _ h => Option.noConfusion h, fun _ _ _ h => Option.noConfusion h⟩
     ⟨fun _ _ _ h => Option.noConfusion h, fun _ _ _ h => Option.noConfusion h,
       fun _ _ _ h => Option.noConfusion h⟩⟩

/-- C4: for every commit-list response, with any fuel left: a transport
failure appends the request-failed error; a 401 or 403 appends the
access-denied error when a token was supplied and only the
may-be-private warning when it was not; a 404 appends the not-found error;
any other status at or above 400 appends an error embedding the status
code; and in each case the loop stops at once with only that one entry
appended and without raising (these branches run before any body decode),
for the GitHub and the GitLab fetcher alike. -/
theorem fetch_status_policy (localOff : Int) (ghEnv : GithubEnv) (glEnv : GitlabEnv)
    (repoUrl : String) (token : Option String) (fuel page : Nat) (acc : IngestResult) :
    (ghEnv.listPage page = none →
      _github_pages localOff ghEnv repoUrl token (fuel + 1) page acc
        = .ok (addError acc ("GitHub request failed for " ++ repoUrl))) ∧
    (∀ st body, ghEnv.listPage page = some (st, body) → st = 401 ∨ st = 403 →
      pyTruthy token = true →
      _github_pages localOff ghEnv repoUrl token (fuel + 1) page acc
        = .ok (addError acc
            ("GitHub access denied for " ++ repoUrl ++ "; token may lack scope"))) ∧
    (∀ st body, ghEnv.listPage page = some (st, body) → st = 401 ∨ st = 403 →
      pyTruthy token = false →
      _github_pages localOff ghEnv repoUrl token (fuel + 1) page acc
        = .ok (addWarning acc
            ("GitHub repo may be private: " ++ repoUrl ++ "; missing token, skipped"))) ∧
    (∀ body, ghEnv.listPage page = some (404, body) →
      _github_pages localOff ghEnv repoUrl token (fuel + 1) page acc
        = .ok (addError acc ("GitHub repo not found or unreachable: " ++ repoUrl))) ∧
    (∀ st body, ghEnv.listPage page = some (st, body) → 400 ≤ st → st ≠ 401 → st ≠ 403 →
      st ≠ 404 →
      _github_pages localOff ghEnv repoUrl token (fuel + 1) page acc
        = .ok (addError acc ("GitHub API error (" ++ natStr st ++ ") for " ++ repoUrl))) ∧
    (glEnv.listPage page = none →
      _gitlab_pages localOff glEnv repoUrl token (fuel + 1) page acc
        = .ok (addError acc ("GitLab request failed for " ++ repoUrl))) ∧
    (∀ st body, glEnv.listPage page = some (st, body) → st = 401 ∨ st = 403 →
      pyTruthy token = true →
      _gitlab_pages localOff glEnv repoUrl token (fuel + 1) page acc
        = .ok (addError acc
            ("GitLab access denied for " ++ repoUrl ++ "; token may lack scope"))) ∧
    (∀ st body, glEnv.listPage page = some (st, body) → st = 401 ∨ st = 403 →
      pyTruthy token = false →
      _gitlab_pages localOff glEnv repoUrl token (fuel + 1) page acc
        = .ok (addWarning acc
            ("GitLab repo may be private: " ++ repoUrl ++ "; missing token, skipped"))) ∧
    (∀ body, glEnv.listPage page = some (404, body) →
      _gitlab_pages localOff glEnv repoUrl token (fuel + 1) page acc
        = .ok (addError acc ("GitLab repo not found or unreachable: " ++ repoUrl))) ∧
    (∀ st body, glEnv.listPage page = some (st, body) → 400 ≤ st → st ≠ 401 → st ≠ 403 →
      st ≠ 404 →
      _gitlab_pages localOff glEnv repoUrl token (fuel + 1) page acc
        = .ok (addError acc ("GitLab API error (" ++ natStr st ++ ") for " ++ repoUrl))) := by
  refine ⟨?_, ?_, ?_, ?_, ?_, ?_, ?_, ?_, ?_, ?_⟩
  · intro h
    simp only [_github_pages, h]
  · intro st body h h43 htok
    simp only [_github_pages, h, htok]
    simp [h43]
  · intro st body h h43 htok
    simp only [_github_pages, h, htok]
    simp [h43]
  · intro body h
    simp only [_github_pages, h]
    norm_num
  · intro st body h h400 h401 h403 h404
    simp only [_github_pages, h]
    have hor : ¬(st = 401 ∨ st = 403) := by omega
    simp [hor, h401, h403, h404, h400]
  · intro h
    simp only [_gitlab_pages, h]
  · intro st body h h43 htok
    simp only [_gitlab_pages, h, htok]
    simp [h43]
  · intro st body h h43 htok
    simp only [_gitlab_pages, h, htok]
    simp [h43]
  · intro body h
    simp only [_gitlab_pages, h]
    norm_num
  · intro st body h h400 h401 h403 h404
    simp only [_gitlab_pages, h]
    have hor : ¬(st = 401 ∨ st = 403) := by omega
    simp [hor, h401, h403, h404, h400]

/-- Witness for C4: a GitHub list response with status 404 stops the fetch
with the not-found error, and a GitLab transport failure stops it with the
request-failed error. -/
theorem fetch_status_policy_witness :
    _github_pages 0 ⟨fun _ => some (404, JsonBody.decoded none), fun _ => none⟩ ("u") none 1 1
        ⟨⟨"t", "u"⟩, [], [], []⟩
      = .ok (addError ⟨⟨"t", "u"⟩, [], [], []⟩ ("GitHub repo not found or unreachable: u")) ∧
    _gitlab_pages 0 ⟨fun _ => none, fun _ => none, fun _ => none⟩ ("u") none 1 1
        ⟨⟨"t", "u"⟩, [], [], []⟩
      = .ok (addError ⟨⟨"t", "u"⟩, [], [], []⟩ ("GitLab request failed for u")) :=
  ⟨(fetch_status_policy 0 ⟨fun _ => some (404, JsonBody.decoded none), fun _ => none⟩
      ⟨fun _ => none, fun _ => none, fun _ => none⟩ ("u") none 0 1
      ⟨⟨"t", "u"⟩, [], [], []⟩).2.2.2.1 (JsonBody.decoded none) rfl,
   (fetch_status_policy 0 ⟨fun _ => some (404, JsonBody.decoded none), fun _ => none⟩
      ⟨fun _ => none, fun _ => none, fun _ => none⟩ ("u") none 0 1
      ⟨⟨"t", "u"⟩, [], [], []⟩).2.2.2.2.2.1 rfl⟩

/-- C5 counterexample: in the source, a failed GitLab per-commit diff request
does not append a warning and does not drop the commit; the commit is kept
with an empty changed-file list. Concretely, a GitLab repository with one
commit whose detail request succeeds and whose diff request fails at the
transport level ingests to one commit with no files and no warnings,
contradicting the claim that every follow-up failure warns and drops. -/
theorem gitlab_diff_failure_cx :
    ingest_repo ⟨"Team", "https://gitlab.com/grp/proj"⟩ none none
        ⟨⟨fun _ => none, fun _ => none⟩,
          ⟨fun p => if p = 1 then some (200, JsonBody.decoded (some [⟨some ("abc")⟩])) else none,
            fun _ => some (200, JsonBody.decoded ⟨some ("A"), some ("a@b"),
              some ("2026-02-21T12:00:00Z"), some ("m")⟩),
            fun _ => none⟩, none, none⟩ 0 5
      = .ok ⟨⟨"Team", "https://gitlab.com/grp/proj"⟩,
          [⟨"abc", "A", "a@b", "2026-02-21T12:00:00Z", "m", []⟩], [], []⟩ := by
  decide

/-- C5 as amended: a failed GitHub detail request and a failed GitLab detail
request (transport failure or status at or above 400) append a warning, drop
that commit, and continue with the remaining entries; a failed GitLab diff
request instead appends no warning and keeps the commit with an empty
changed-file list. -/
theorem detail_failure_policy (localOff : Int) (ghEnv : GithubEnv) (glEnv : GitlabEnv)
    (repoUrl sha : String) (ghItem : GhItem) (glItem : GlItem)
    (ghRest : List GhItem) (glRest : List GlItem) (acc : IngestResult) :
    (pyOr ghItem.sha ("") = sha → sha ≠ "" → ghEnv.detail sha = none →
      _github_items localOff ghEnv repoUrl (ghItem :: ghRest) acc
        = _github_items localOff ghEnv repoUrl ghRest
            (addWarning acc
              ("Failed to fetch commit details for " ++ sha ++ " in " ++ repoUrl))) ∧
    (∀ st d, pyOr ghItem.sha ("") = sha → sha ≠ "" → ghEnv.detail sha = some (st, d) →
      400 ≤ st →
      _github_items localOff ghEnv repoUrl (ghItem :: ghRest) acc
        = _github_items localOff ghEnv repoUrl ghRest
            (addWarning acc
              ("Failed to fetch commit details for " ++ sha ++ " in " ++ repoUrl))) ∧
    (pyOr glItem.id ("") = sha → sha ≠ "" → glEnv.detail sha = none →
      _gitlab_items localOff glEnv repoUrl (glItem :: glRest) acc
        = _gitlab_items localOff glEnv repoUrl glRest
            (addWarning acc
              ("Failed to fetch commit details for " ++ sha ++ " in " ++ repoUrl))) ∧
    (∀ st d, pyOr glItem.id ("") = sha → sha ≠ "" → glEnv.detail sha = some (st, d) →
      400 ≤ st →
      _gitlab_items localOff glEnv repoUrl (glItem :: glRest) acc
        = _gitlab_items localOff glEnv repoUrl glRest
            (addWarning acc
              ("Failed to fetch commit details for " ++ sha ++ " in " ++ repoUrl))) ∧
    (∀ st d, pyOr glItem.id ("") = sha → sha ≠ "" →
      glEnv.detail sha = some (st, JsonBody.decoded d) →
      st < 400 → glEnv.diff sha = none →
      _gitlab_items localOff glEnv repoUrl (glItem :: glRest) acc
        = _gitlab_items localOff glEnv repoUrl glRest
            (addCommit acc
              ⟨sha, pyOr d.author_name ("unknown"), pyOr d.author_email ("unknown"),
                _normalize_timestamp localOff (pyOr d.committed_date ("")),
                pyOr d.message (""), []⟩)) ∧
    (∀ st d dst diffBody, pyOr glItem.id ("") = sha → sha ≠ "" →
      glEnv.detail sha = some (st, JsonBody.decoded d) → st < 400 →
      glEnv.diff sha = some (dst, diffBody) → 400 ≤ dst →
      _gitlab_items localOff glEnv repoUrl (glItem :: glRest) acc
        = _gitlab_items localOff glEnv repoUrl glRest
            (addCommit acc
              ⟨sha, pyOr d.author_name ("unknown"), pyOr d.author_email ("unknown"),
                _normalize_timestamp localOff (pyOr d.committed_date ("")),
                pyOr d.message (""), []⟩)) := by
  refine ⟨?_, ?_, ?_, ?_, ?_, ?_⟩
  · intro hsha hne h
    subst hsha
    simp only [_github_items, h]
    simp [hne]
  · intro st d hsha hne h h400
    subst hsha
    simp only [_github_items, h]
    simp [hne, h400]
  · intro hsha hne h
    subst hsha
    simp only [_gitlab_items, h]
    simp [hne]
  · intro st d hsha hne h h400
    subst hsha
    simp only [_gitlab_items, h]
    simp [hne, h400]
  · intro st d hsha hne h h400 hdiff
    subst hsha
    simp only [_gitlab_items, h, hdiff]
    simp [hne, Nat.not_le.mpr h400]
  · intro st d dst diffBody hsha hne h h400 hdiff hd400
    subst hsha
    simp only [_gitlab_items, h, hdiff]
    simp [hne, Nat.not_le.mpr h400, hd400]

/-- Witness for C5 (amended): a GitHub detail transport failure warns and
drops the commit, and a failed GitLab diff request silently keeps the commit
with no files. -/
theorem detail_failure_policy_witness :
    _github_items 0 ⟨fun _ => some (404, JsonBody.decoded none), fun _ => none⟩ ("u")
        [⟨some ("abc")⟩] ⟨⟨"t", "u"⟩, [], [], []⟩
      = _github_items 0 ⟨fun _ => some (404, JsonBody.decoded none), fun _ => none⟩ ("u") []
          (addWarning ⟨⟨"t", "u"⟩, [], [], []⟩
            ("Failed to fetch commit details for abc in u")) ∧
    _gitlab_items 0 ⟨fun _ => none,
          fun _ => some (200, JsonBody.decoded ⟨some ("A"), some ("a@b"),
            some ("2026-02-21T12:00:00Z"), some ("m")⟩), fun _ => none⟩
        ("u") [⟨some ("abc")⟩] ⟨⟨"t", "u"⟩, [], [], []⟩
      = _gitlab_items 0 ⟨fun _ => none,
          fun _ => some (200, JsonBody.decoded ⟨some ("A"), some ("a@b"),
            some ("2026-02-21T12:00:00Z"), some ("m")⟩), fun _ => none⟩ ("u") []
          (addCommit ⟨⟨"t", "u"⟩, [], [], []⟩
            ⟨"abc", "A", "a@b", "2026-02-21T12:00:00Z", "m", []⟩) := by
  constructor
  · exact (detail_failure_policy 0 ⟨fun _ => some (404, JsonBody.decoded none), fun _ => none⟩
      ⟨fun _ => none, fun _ => some (200, JsonBody.decoded ⟨some ("A"), some ("a@b"),
        some ("2026-02-21T12:00:00Z"), some ("m")⟩), fun _ => none⟩
      ("u") ("abc") ⟨some ("abc")⟩ ⟨some ("abc")⟩ [] [] ⟨⟨"t", "u"⟩, [], [], []⟩).1
      rfl (by decide) rfl
  · exact ((detail_failure_policy 0 ⟨fun _ => some (404, JsonBody.decoded none), fun _ => none⟩
      ⟨fun _ => none, fun _ => some (200, JsonBody.decoded ⟨some ("A"), some ("a@b"),
        some ("2026-02-21T12:00:00Z"), some ("m")⟩), fun _ => none⟩
      ("u") ("abc") ⟨some ("abc")⟩ ⟨some ("abc")⟩ [] [] ⟨⟨"t", "u"⟩, [], [], []⟩).2.2.2.2.1
      200 ⟨some ("A"), some ("a@b"), some ("2026-02-21T12:00:00Z"), some ("m")⟩
      rfl (by decide) rfl (by decide) rfl).trans (by decide)

/-- C6: with netloc and path the urlparse components of the URL and host the
lowered, stripped netloc: a host exactly github.com or www.github.com with
at least two non-empty path segments resolves to provider github, owner the
first segment and repo the second with a trailing .git suffix stripped; a
host containing the substring gitlab with at least two segments resolves to
provider gitlab, repo the last segment suffix-stripped and namespace the
preceding segments joined by slash; and for either provider family fewer
than two segments fail with an invalid-URL error. -/
theorem parse_repo_url_spec (url netloc path host : String)
    (hsplit : urlNetlocPath url = (netloc, path))
    (hhost : pyStrip (pyLower netloc) = host) :
    ((host = "github.com" ∨ host = "www.github.com") →
      ∀ p0 p1 rest, pathParts path = p0 :: p1 :: rest →
      parse_repo_url url
        = .ok ⟨"github", host, some p0, some (removesuffix p1 (".git")), none⟩) ∧
    (hasSub ("gitlab".toList) host.toList = true →
      ∀ p0 p1 rest, pathParts path = p0 :: p1 :: rest →
      parse_repo_url url
        = .ok ⟨"gitlab", host, none,
            some (removesuffix ((p0 :: p1 :: rest).getLastD ("")) (".git")),
            some (pyJoin ("/") ((p0 :: p1 :: rest).dropLast))⟩) ∧
    (((host = "github.com" ∨ host = "www.github.com")
        ∨ hasSub ("gitlab".toList) host.toList = true) →
      (pathParts path).length < 2 →
      ∃ msg, parse_repo_url url = .error msg) := by
  refine ⟨?_, ?_, ?_⟩
  · intro hg p0 p1 rest hparts
    rcases hg with rfl | rfl <;>
      simp [parse_repo_url, hsplit, hhost, hparts, GITHUB_HOSTS]
  · intro hgl p0 p1 rest hparts
    have hgl1 : hasSub ['g', 'i', 't', 'l', 'a', 'b'] host.data = true := hgl
    have h1 : host ≠ "" := by rintro rfl; exact absurd hgl (by decide)
    have h2 : host ≠ "github.com" := by rintro rfl; exact absurd hgl (by decide)
    have h3 : host ≠ "www.github.com" := by rintro rfl; exact absurd hgl (by decide)
    simp [parse_repo_url, hsplit, hhost, hparts, GITHUB_HOSTS, h1, h2, h3, hgl1]
  · intro hprov hlen
    rcases hprov with (rfl | rfl) | hgl
    · rcases hpp : pathParts path with _ | ⟨p0, _ | ⟨p1, rest⟩⟩
      · exact ⟨"Invalid GitHub URL: " ++ url,
          by simp [parse_repo_url, hsplit, hhost, hpp, GITHUB_HOSTS]⟩
      · exact ⟨"Invalid GitHub URL: " ++ url,
          by simp [parse_repo_url, hsplit, hhost, hpp, GITHUB_HOSTS]⟩
      · rw [hpp] at hlen; simp at hlen; omega
    · rcases hpp : pathParts path with _ | ⟨p0, _ | ⟨p1, rest⟩⟩
      · exact ⟨"Invalid GitHub URL: " ++ url,
          by simp [parse_repo_url, hsplit, hhost, hpp, GITHUB_HOSTS]⟩
      · exact ⟨"Invalid GitHub URL: " ++ url,
          by simp [parse_repo_url, hsplit, hhost, hpp, GITHUB_HOSTS]⟩
      · rw [hpp] at hlen; simp at hlen; omega
    · have hgl1 : hasSub ['g', 'i', 't', 'l', 'a', 'b'] host.data = true := hgl
      have h1 : host ≠ "" := by rintro rfl; exact absurd hgl (by decide)
      have h2 : host ≠ "github.com" := by rintro rfl; exact absurd hgl (by decide)
      have h3 : host ≠ "www.github.com" := by rintro rfl; exact absurd hgl (by decide)
      rcases hpp : pathParts path with _ | ⟨p0, _ | ⟨p1, rest⟩⟩
      · exact ⟨"Invalid GitLab URL: " ++ url,
          by simp [parse_repo_url, hsplit, hhost, hpp, GITHUB_HOSTS, h1, h2, h3, hgl1]⟩
      · exact ⟨"Invalid GitLab URL: " ++ url,
          by simp [parse_repo_url, hsplit, hhost, hpp, GITHUB_HOSTS, h1, h2, h3, hgl1]⟩
      · rw [hpp] at hlen; simp at hlen; omega

/-- Witness for C6: a github.com URL with a .git suffix, a nested gitlab
group URL, and a one-segment github URL failing with an invalid-URL error. -/
theorem parse_repo_url_spec_witness :
    parse_repo_url ("https://github.com/octocat/hello-world.git")
      = .ok ⟨"github", "github.com", some ("octocat"), some ("hello-world"), none⟩ ∧
    parse_repo_url ("https://gitlab.com/group/subgroup/project")
      = .ok ⟨"gitlab", "gitlab.com", none, some ("project"), some ("group/subgroup")⟩ ∧
    ∃ msg, parse_repo_url ("https://github.com/justowner") = .error msg := by
  refine ⟨?_, ?_, ?_⟩
  · exact ((parse_repo_url_spec ("https://github.com/octocat/hello-world.git")
      ("github.com") ("/octocat/hello-world.git") ("github.com") rfl rfl).1
      (Or.inl rfl) ("octocat") ("hello-world.git") [] rfl).trans (by rfl)
  · exact ((parse_repo_url_spec ("https://gitlab.com/group/subgroup/project")
      ("gitlab.com") ("/group/subgroup/project") ("gitlab.com") rfl rfl).2.1
      (by decide) ("group") ("subgroup") [("project")] rfl).trans (by rfl)
  · exact (parse_repo_url_spec ("https://github.com/justowner")
      ("github.com") ("/justowner") ("github.com") rfl rfl).2.2
      (Or.inl (Or.inl rfl)) (by decide)

/-- The decimal digits of a natural number never contain a plus sign. -/
theorem natDigitsGo_no_plus (fuel : Nat) : ∀ n, '+' ∉ natDigitsGo fuel n := by
  induction fuel with
  | zero => intro n; simp [natDigitsGo]
  | succ f ih =>
    intro n
    have hd : ∀ k, k < 10 → ¬ ('+' = digitChar k) := by decide
    simp only [natDigitsGo]
    split
    · rename_i h
      simp only [List.mem_singleton]
      exact hd n h
    · intro hmem
      rcases List.mem_append.mp hmem with h1 | h2
      · exact ih _ h1
      · exact hd (n % 10) (Nat.mod_lt _ (by omega)) (by simpa using h2)

/-- Zero-padded decimal renderings never contain a plus sign. -/
theorem padNum_no_plus (w n : Nat) : '+' ∉ (padNum w n).toList := by
  intro hmem
  have hshape : (padNum w n).toList
      = List.replicate (w - (natDigitsGo (n + 1) n).length) '0' ++ natDigitsGo (n + 1) n := rfl
  rw [hshape] at hmem
  rcases List.mem_append.mp hmem with h1 | h2
  · exact absurd (List.eq_of_mem_replicate h1) (by decide)
  · exact natDigitsGo_no_plus _ _ h2

/-- The offset-free isoformat body never contains a plus sign: the offset
suffix is the only place one can occur, so replacing the +00:00 suffix is
replacing exactly that suffix. -/
theorem isoBase_no_plus (dt : PyDateTime) : '+' ∉ (isoBase dt).toList := by
  have h1 := padNum_no_plus 4 dt.year
  have h2 := padNum_no_plus 2 dt.month
  have h3 := padNum_no_plus 2 dt.day
  have h4 := padNum_no_plus 2 dt.hour
  have h5 := padNum_no_plus 2 dt.minute
  have h6 := padNum_no_plus 2 dt.second
  have h7 := padNum_no_plus 6 dt.microsecond
  have l1 : '+' ∉ "-".toList := by decide
  have l2 : '+' ∉ ":".toList := by decide
  have l3 : '+' ∉ "T".toList := by decide
  have l4 : '+' ∉ ".".toList := by decide
  have l5 : '+' ∉ "".toList := by decide
  by_cases hmic : dt.microsecond = 0 <;>
    simp_all [isoBase, String.toList, String.data_append, List.mem_append]

/-- Replacing in an empty text gives the empty text at any fuel. -/
theorem pyReplaceGo_nil (pat rep : List Char) (fuel : Nat) :
    pyReplaceGo pat rep fuel [] = [] := by
  cases fuel <;> rfl

/-- A list always matches at itself. -/
theorem matchesAt_refl : ∀ l : List Char, matchesAt l l = true := by
  intro l
  induction l with
  | nil => rfl
  | cons c rest ih => simp [matchesAt, ih]

/-- Replace-all on a text that is a clean base followed by exactly one
occurrence of the pattern, where the pattern head never occurs in the base,
rewrites exactly that occurrence. -/
theorem pyReplaceGo_append_head_notin (p0 : Char) (pat1 rep : List Char) :
    ∀ base : List Char, p0 ∉ base →
    pyReplaceGo (p0 :: pat1) rep (base ++ p0 :: pat1).length (base ++ p0 :: pat1)
      = base ++ rep := by
  intro base
  induction base with
  | nil =>
    intro _
    simp only [List.nil_append, List.length_cons]
    simp only [pyReplaceGo]
    rw [if_pos ⟨List.cons_ne_nil _ _, matchesAt_refl _⟩]
    rw [List.length_cons, Nat.add_sub_cancel, List.drop_length, pyReplaceGo_nil,
      List.append_nil]
  | cons c base1 ih =>
    intro hnotin
    have hc : p0 ≠ c := fun h => hnotin (h ▸ List.mem_cons_self _ _)
    simp only [List.cons_append, List.length_cons]
    simp only [pyReplaceGo]
    rw [if_neg]
    · rw [ih (fun h => hnotin (List.mem_cons_of_mem _ h))]
    · rintro ⟨-, hmm⟩
      simp [matchesAt, beq_iff_eq, hc] at hmm

/-- Concatenating two strings through their character lists is string
concatenation. -/
theorem asString_append (s t : String) : (s.toList ++ t.toList).asString = s ++ t := by
  cases s
  cases t
  rfl

/-- The replace step of the normalizer rewrites exactly the +00:00 suffix of
the isoformat output to Z. -/
theorem isoformatZ (dt : PyDateTime) :
    pyReplaceStr (isoformatUtc dt) ("+00:00") ("Z") = isoBase dt ++ "Z" := by
  unfold pyReplaceStr pyReplace isoformatUtc
  have hsplit : (isoBase dt ++ "+00:00").toList = (isoBase dt).toList ++ "+00:00".toList := by
    simp [String.toList, String.data_append]
  rw [hsplit]
  rw [show ("+00:00".toList) = '+' :: "00:00".toList from rfl]
  rw [pyReplaceGo_append_head_notin '+' ("00:00".toList) ("Z".toList) _ (isoBase_no_plus dt)]
  exact asString_append _ _

/-- C7: timestamp normalization is total over strings; a value the ISO-8601
parser rejects is returned unchanged, and a parseable value is re-emitted as
the isoformat of its UTC conversion with the trailing Z, so the output is in
UTC (offset zero) and carries the trailing Z. -/
theorem normalize_timestamp_spec (localOff : Int) (raw : String) :
    (fromisoformat (pyReplaceStr raw ("Z") ("+00:00")) = none →
      _normalize_timestamp localOff raw = raw) ∧
    (∀ dt, fromisoformat (pyReplaceStr raw ("Z") ("+00:00")) = some dt →
      _normalize_timestamp localOff raw = isoBase (astimezoneUtc localOff dt) ++ "Z" ∧
      (astimezoneUtc localOff dt).offset = some 0) := by
  constructor
  · intro h
    by_cases hraw : raw = ""
    · simp [_normalize_timestamp, hraw]
    · simp only [_normalize_timestamp, if_neg hraw, h]
  · intro dt h
    have hraw : raw ≠ "" := by
      rintro rfl
      exact Option.noConfusion h
    refine ⟨?_, rfl⟩
    simp only [_normalize_timestamp, if_neg hraw, h]
    exact isoformatZ _

/-- Witness for C7: an unparseable value passes through unchanged, and a
parseable offset value is re-emitted in UTC with the trailing Z. -/
theorem normalize_timestamp_spec_witness :
    _normalize_timestamp 0 ("not-a-date") = "not-a-date" ∧
    _normalize_timestamp 0 ("2026-02-20T09:30:00-05:00") = "2026-02-20T14:30:00Z" ∧
    (astimezoneUtc 0 ⟨2026, 2, 20, 9, 30, 0, 0, some (-18000)⟩).offset = some 0 := by
  refine ⟨(normalize_timestamp_spec 0 ("not-a-date")).1 (by decide), ?_, ?_⟩
  · exact (((normalize_timestamp_spec 0 ("2026-02-20T09:30:00-05:00")).2
      ⟨2026, 2, 20, 9, 30, 0, 0, some (-18000)⟩ (by decide)).1).trans (by decide)
  · exact ((normalize_timestamp_spec 0 ("2026-02-20T09:30:00-05:00")).2
      ⟨2026, 2, 20, 9, 30, 0, 0, some (-18000)⟩ (by decide)).2

/-- matchesAt decides the leading-segment relation. -/
theorem matchesAt_iff (p t : List Char) : matchesAt p t = true ↔ p <+: t := by
  induction p generalizing t with
  | nil => simp [matchesAt]
  | cons a p1 ih =>
    cases t with
    | nil => simp [matchesAt]
    | cons b t1 => simp [matchesAt, List.cons_prefix_cons, ih]

/-- An occurrence inside a cons is an occurrence at the head or an occurrence
in the tail. -/
theorem infix_cons_split {l : List Char} {a : Char} {t : List Char}
    (h : l <:+: a :: t) : l <+: a :: t ∨ l <:+: t := by
  obtain ⟨u, v, huv⟩ := h
  cases u with
  | nil => exact Or.inl ⟨v, by simpa using huv⟩
  | cons x u1 =>
    rw [List.cons_append, List.cons_append] at huv
    injection huv with h1 h2
    exact Or.inr ⟨u1, v, h2⟩

/-- An occurrence inside an append whose left part shares no character with
the occurring list lies inside the right part. -/
theorem infix_append_right {l A B : List Char} (hne : l ≠ [])
    (hd : ∀ c ∈ A, c ∉ l) (h : l <:+: A ++ B) : l <:+: B := by
  induction A with
  | nil => simpa using h
  | cons a A1 ih =>
    rw [List.cons_append] at h
    rcases infix_cons_split h with hpre | hinf
    · cases l with
      | nil => exact absurd rfl hne
      | cons l0 l1 =>
        obtain ⟨h0, -⟩ := List.cons_prefix_cons.mp hpre
        exact absurd (show a ∈ l0 :: l1 by rw [← h0]; exact List.mem_cons_self _ _)
          (hd a (List.mem_cons_self _ _))
    · exact ih (fun c hc => hd c (List.mem_cons_of_mem _ hc)) hinf

/-- A leading segment of the sanitized text that is non-empty and free of the
marker character is a leading segment of the original text. -/
theorem prefix_pyReplaceGo (pat : List Char) :
    ∀ fuel (s text : List Char), s ≠ [] → ('*') ∉ s →
      text.length ≤ fuel → s <+: pyReplaceGo pat REDACTION fuel text → s <+: text := by
  intro fuel
  induction fuel with
  | zero =>
    intro s text hs hdisj hlen hpre
    have htext : text = [] := List.eq_nil_of_length_eq_zero (Nat.le_zero.mp hlen)
    subst htext
    rw [show pyReplaceGo pat REDACTION 0 [] = [] from rfl, List.prefix_nil] at hpre
    exact absurd hpre hs
  | succ f ih =>
    intro s text hs hdisj hlen hpre
    cases text with
    | nil =>
      rw [show pyReplaceGo pat REDACTION (f + 1) [] = [] from rfl, List.prefix_nil] at hpre
      exact absurd hpre hs
    | cons c rest =>
      by_cases hif : pat ≠ [] ∧ matchesAt pat (c :: rest) = true
      · rw [show pyReplaceGo pat REDACTION (f + 1) (c :: rest)
            = if pat ≠ [] ∧ matchesAt pat (c :: rest) = true then
                REDACTION ++ pyReplaceGo pat REDACTION f (List.drop (pat.length - 1) rest)
              else c :: pyReplaceGo pat REDACTION f rest from rfl, if_pos hif] at hpre
        cases s with
        | nil => exact absurd rfl hs
        | cons s0 s1 =>
          obtain ⟨h0, -⟩ := List.cons_prefix_cons.mp hpre
          exact absurd (show ('*') ∈ s0 :: s1 by rw [← h0]; exact List.mem_cons_self _ _) hdisj
      · rw [show pyReplaceGo pat REDACTION (f + 1) (c :: rest)
            = if pat ≠ [] ∧ matchesAt pat (c :: rest) = true then
                REDACTION ++ pyReplaceGo pat REDACTION f (List.drop (pat.length - 1) rest)
              else c :: pyReplaceGo pat REDACTION f rest from rfl, if_neg hif] at hpre
        cases s with
        | nil => exact absurd rfl hs
        | cons s0 s1 =>
          obtain ⟨h0, h1⟩ := List.cons_prefix_cons.mp hpre
          subst h0
          by_cases hs1 : s1 = []
          · subst hs1
            exact List.cons_prefix_cons.mpr ⟨rfl, List.nil_prefix⟩
          · have hlen1 : rest.length ≤ f := by
              simp only [List.length_cons] at hlen
              omega
            have hdisj1 : ('*') ∉ s1 := fun h => hdisj (List.mem_cons_of_mem _ h)
            exact List.cons_prefix_cons.mpr ⟨rfl, ih s1 rest hs1 hdisj1 hlen1 h1⟩

/-- The scrubbed token never survives in the sanitized text, for a non-empty
token free of the marker character. -/
theorem token_not_infix_pyReplaceGo (token : List Char) (h1 : token ≠ [])
    (h2 : ('*') ∉ token) :
    ∀ fuel text, text.length ≤ fuel → ¬ token <:+: pyReplaceGo token REDACTION fuel text := by
  intro fuel
  induction fuel with
  | zero =>
    intro text hlen hinf
    have htext : text = [] := List.eq_nil_of_length_eq_zero (Nat.le_zero.mp hlen)
    subst htext
    rw [show pyReplaceGo token REDACTION 0 [] = [] from rfl, List.infix_nil] at hinf
    exact h1 hinf
  | succ f ih =>
    intro text hlen hinf
    cases text with
    | nil =>
      rw [show pyReplaceGo token REDACTION (f + 1) [] = [] from rfl, List.infix_nil] at hinf
      exact h1 hinf
    | cons c rest =>
      have hlenr : rest.length ≤ f := by
        simp only [List.length_cons] at hlen
        omega
      by_cases hif : token ≠ [] ∧ matchesAt token (c :: rest) = true
      · rw [show pyReplaceGo token REDACTION (f + 1) (c :: rest)
            = if token ≠ [] ∧ matchesAt token (c :: rest) = true then
                REDACTION ++ pyReplaceGo token REDACTION f (List.drop (token.length - 1) rest)
              else c :: pyReplaceGo token REDACTION f rest from rfl, if_pos hif] at hinf
        have hdisj : ∀ ch ∈ REDACTION, ch ∉ token := by
          intro ch hch
          have hstar : ch = '*' := by
            simpa [REDACTION] using hch
          rw [hstar]
          exact h2
        have hinf2 := infix_append_right h1 hdisj hinf
        have hlen2 : (List.drop (token.length - 1) rest).length ≤ f := by
          simp only [List.length_drop]
          omega
        exact ih _ hlen2 hinf2
      · rw [show pyReplaceGo token REDACTION (f + 1) (c :: rest)
            = if token ≠ [] ∧ matchesAt token (c :: rest) = true then
                REDACTION ++ pyReplaceGo token REDACTION f (List.drop (token.length - 1) rest)
              else c :: pyReplaceGo token REDACTION f rest from rfl, if_neg hif] at hinf
        rcases infix_cons_split hinf with hpre | hinf2
        · have hpre2 : token <+: c :: pyReplaceGo token REDACTION f rest := hpre
          have htext : token <+: c :: rest := by
            cases token with
            | nil => exact absurd rfl h1
            | cons t0 t1 =>
              obtain ⟨h0, hp1⟩ := List.cons_prefix_cons.mp hpre2
              subst h0
              by_cases ht1 : t1 = []
              · subst ht1
                exact List.cons_prefix_cons.mpr ⟨rfl, List.nil_prefix⟩
              · have hd1 : ('*') ∉ t1 := fun h => h2 (List.mem_cons_of_mem _ h)
                exact List.cons_prefix_cons.mpr
                  ⟨rfl, prefix_pyReplaceGo (t0 :: t1) f t1 rest ht1 hd1 hlenr hp1⟩
          exact hif ⟨h1, (matchesAt_iff _ _).mpr htext⟩
        · exact ih _ hlenr hinf2

/-- When the token occurred in the text, the marker occurs in the sanitized
text. -/
theorem marker_infix_pyReplaceGo (token : List Char) (h1 : token ≠ []) :
    ∀ fuel text, text.length ≤ fuel → token <:+: text →
      REDACTION <:+: pyReplaceGo token REDACTION fuel text := by
  intro fuel
  induction fuel with
  | zero =>
    intro text hlen htok
    have htext : text = [] := List.eq_nil_of_length_eq_zero (Nat.le_zero.mp hlen)
    subst htext
    rw [List.infix_nil] at htok
    exact absurd htok h1
  | succ f ih =>
    intro text hlen htok
    cases text with
    | nil =>
      rw [List.infix_nil] at htok
      exact absurd htok h1
    | cons c rest =>
      have hlenr : rest.length ≤ f := by
        simp only [List.length_cons] at hlen
        omega
      by_cases hif : token ≠ [] ∧ matchesAt token (c :: rest) = true
      · rw [show pyReplaceGo token REDACTION (f + 1) (c :: rest)
            = if token ≠ [] ∧ matchesAt token (c :: rest) = true then
                REDACTION ++ pyReplaceGo token REDACTION f (List.drop (token.length - 1) rest)
              else c :: pyReplaceGo token REDACTION f rest from rfl, if_pos hif]
        exact ⟨[], _, rfl⟩
      · rw [show pyReplaceGo token REDACTION (f + 1) (c :: rest)
            = if token ≠ [] ∧ matchesAt token (c :: rest) = true then
                REDACTION ++ pyReplaceGo token REDACTION f (List.drop (token.length - 1) rest)
              else c :: pyReplaceGo token REDACTION f rest from rfl, if_neg hif]
        rcases infix_cons_split htok with hpre | hinf
        · exact absurd ⟨h1, (matchesAt_iff _ _).mpr hpre⟩ hif
        · obtain ⟨u, v, huv⟩ := ih rest hlenr hinf
          exact ⟨c :: u, v, by rw [← huv]; simp⟩

/-- C9 counterexample: with the degenerate token consisting of the marker
character itself, exact substring replacement re-introduces the token: the
text a*b contains the token, and so does the sanitized a***b. The claim as a
hyperproperty over all token strings is therefore false. -/
theorem scrub_clone_error_cx :
    ("*".toList <:+: "a*b".toList) ∧
    scrub_clone_error ("*") ("a*b") = "a***b" ∧
    ("*".toList <:+: (scrub_clone_error ("*") ("a*b")).toList) := by
  refine ⟨⟨"a".toList, "b".toList, by decide⟩, by decide, ⟨"a".toList, "**b".toList, by decide⟩⟩

/-- C9 (amended): for every non-empty token that does not contain the marker
character, the sanitized clone-failure text never contains the token, and
when the captured text contained the token the sanitized text contains the
redaction marker.  Modelled from the spec, since the clone strategy is not
under src. -/
theorem scrub_clone_error_spec (token text : String) (h1 : token ≠ "")
    (h2 : ('*') ∉ token.toList) :
    (¬ token.toList <:+: (scrub_clone_error token text).toList) ∧
    (token.toList <:+: text.toList → REDACTION <:+: (scrub_clone_error token text).toList) := by
  have hTL : token.toList ≠ [] := by
    intro hl
    apply h1
    cases token with
    | mk d =>
      simp only [String.toList] at hl
      subst hl
      rfl
  have hlist : (scrub_clone_error token text).toList
      = pyReplaceGo token.toList REDACTION text.toList.length text.toList := rfl
  rw [hlist]
  exact ⟨token_not_infix_pyReplaceGo token.toList hTL h2 text.toList.length text.toList le_rfl,
    fun htok => marker_infix_pyReplaceGo token.toList hTL text.toList.length text.toList
      le_rfl htok⟩

/-- Witness for C9 (amended): a realistic token is fully scrubbed and the
marker appears in the sanitized message. -/
theorem scrub_clone_error_spec_witness :
    (¬ "ghp_secret".toList <:+:
      (scrub_clone_error ("ghp_secret") ("fatal: auth failed for ghp_secret@host")).toList) ∧
    (REDACTION <:+:
      (scrub_clone_error ("ghp_secret") ("fatal: auth failed for ghp_secret@host")).toList) :=
  ⟨(scrub_clone_error_spec ("ghp_secret") ("fatal: auth failed for ghp_secret@host")
      (by decide) (by decide)).1,
   (scrub_clone_error_spec ("ghp_secret") ("fatal: auth failed for ghp_secret@host")
      (by decide) (by decide)).2
     ⟨"fatal: auth failed for ".toList, "@host".toList, by decide⟩⟩
